import Mathlib

/-!
Shallow embedding of the URL phishing-detection service
(`app.py` / `simple_app.py`): the lexical feature extractor
`extract_features`, the probability-to-verdict decision rule used by the
`/predict` handler, and the `/predict`, `/predict_batch` and `/features`
handlers' validation and dispatch logic.

URL strings are modelled as `List Char`. Python string operations used by
the source (`split`, `count`, `strip`, `in`, `re.match`) are embedded as
executable functions below, each faithful to CPython semantics on the
ASCII inputs the service handles.
-/

/-- Character list of a string literal (convenience for concrete inputs). -/
def S (s : String) : List Char := s.data

/-! ## Python string primitives -/

/-- Embedding of Python `url.split("//")`: leftmost non-overlapping scan,
cutting at each occurrence of the two-character separator `//`. -/
def splitDslash : List Char → List (List Char)
  | [] => [[]]
  | [c] => [[c]]
  | c :: d :: rest =>
    if c = '/' ∧ d = '/' then [] :: splitDslash rest
    else
      match splitDslash (d :: rest) with
      | [] => [[c]]
      | s :: ss => (c :: s) :: ss

/-- Last element of a split result (Python `[-1]`; split output is never
empty, so the default is unreachable). -/
def lastD : List (List Char) → List Char
  | [] => []
  | [x] => x
  | _ :: x :: xs => lastD (x :: xs)

/-- Suffix of `s` after the first occurrence of the character `c`;
`none` when `c` does not occur.  `some` answers coincide with Python
`s.split(c, 1)[-1]` under the guard `c in s`. -/
def afterFirstChar (c : Char) : List Char → Option (List Char)
  | [] => none
  | x :: rest => if x = c then some rest else afterFirstChar c rest

/-- Suffix of `s` after the last occurrence of the character `c`;
`none` when `c` does not occur.  `some` answers coincide with Python
`s.split(c)[-1]` under the guard `c in s`. -/
def afterLastChar (c : Char) : List Char → Option (List Char)
  | [] => none
  | x :: rest =>
    match afterLastChar c rest with
    | some t => some t
    | none => if x = c then some rest else none

/-- Embedding of Python `pat in s` for a two-character-or-more pattern
(substring containment). -/
def containsSeq (pat : List Char) : List Char → Bool
  | [] => pat.isEmpty
  | c :: rest => pat.isPrefixOf (c :: rest) || containsSeq pat rest

/-- Suffix of `s` after the FIRST occurrence of `//`; `none` if `//`
does not occur in `s`. -/
def dropToAfterDslash : List Char → Option (List Char)
  | [] => none
  | [_] => none
  | c :: d :: rest =>
    if c = '/' ∧ d = '/' then some rest else dropToAfterDslash (d :: rest)

theorem dropToAfterDslash_length :
    ∀ s t : List Char, dropToAfterDslash s = some t → t.length < s.length := by
  intro s
  induction s with
  | nil => intro t h; simp [dropToAfterDslash] at h
  | cons c rest ih =>
    intro t h
    cases rest with
    | nil => simp [dropToAfterDslash] at h
    | cons d rest' =>
      simp only [dropToAfterDslash] at h
      by_cases hcd : c = '/' ∧ d = '/'
      · simp [hcd] at h
        subst h
        simp
        omega
      · simp [hcd] at h
        have := ih t h
        simp at this ⊢
        omega

/-- The remainder of `s` after the last separator found by the leftmost
non-overlapping scan for `//`: repeatedly discard everything up to and
including each leftmost `//`; the whole string when `//` is absent. -/
def lastRemainder (s : List Char) : List Char :=
  match h : dropToAfterDslash s with
  | none => s
  | some t => lastRemainder t
termination_by s.length
decreasing_by exact dropToAfterDslash_length s t h

/-! ## The regex `^https?:\/\/\d+\.\d+\.\d+\.\d+` (Python `re.match`) -/

/-- Consume the scheme prefix matched by `https?:\/\/`: exactly
`http://` or `https://` (the optional `s` is deterministic here, since a
matched `s` must be followed by `://`). -/
def stripScheme : List Char → Option (List Char)
  | 'h' :: 't' :: 't' :: 'p' :: ':' :: '/' :: '/' :: t => some t
  | 'h' :: 't' :: 't' :: 'p' :: 's' :: ':' :: '/' :: '/' :: t => some t
  | _ => none

/-- Consume `\d+` by maximal munch (greedy; backtracking never helps
here because the following regex atom `\.` cannot match a digit). -/
def munchDigits (s : List Char) : Option (List Char) :=
  if (s.takeWhile Char.isDigit).isEmpty then none
  else some (s.dropWhile Char.isDigit)

/-- Consume one expected literal character. -/
def expectChar (c : Char) : List Char → Option (List Char)
  | [] => none
  | x :: rest => if x = c then some rest else none

/-- Consume `\.\d+`. -/
def dotDigits (s : List Char) : Option (List Char) :=
  (expectChar '.' s).bind munchDigits

/-- Embedding of
`re.match(r"^https?:\/\/\d+\.\d+\.\d+\.\d+", url) is not None`. -/
def matchIp (url : List Char) : Bool :=
  ((((stripScheme url).bind munchDigits).bind dotDigits).bind dotDigits
      |>.bind dotDigits).isSome

/-! ## The feature record -/

/-- The 15-field feature dictionary built by `extract_features`, in the
source's field order.  Every field is numeric (a natural number; counts
or 0/1 indicators). -/
structure Features where
  url_length : Nat
  path_length : Nat
  query_length : Nat
  num_digits : Nat
  num_letters : Nat
  num_special : Nat
  count_dot : Nat
  count_dash : Nat
  count_slash : Nat
  count_at : Nat
  count_qmark : Nat
  count_percent : Nat
  count_equal : Nat
  has_https : Nat
  has_ip : Nat
deriving DecidableEq, Repr

/-- The feature dictionary as the ordered association list of named
numeric fields, mirroring the dict literal in the source. -/
def Features.toList (f : Features) : List (String × Nat) :=
  [("url_length", f.url_length),
   ("path_length", f.path_length),
   ("query_length", f.query_length),
   ("num_digits", f.num_digits),
   ("num_letters", f.num_letters),
   ("num_special", f.num_special),
   ("count_dot", f.count_dot),
   ("count_dash", f.count_dash),
   ("count_slash", f.count_slash),
   ("count_at", f.count_at),
   ("count_qmark", f.count_qmark),
   ("count_percent", f.count_percent),
   ("count_equal", f.count_equal),
   ("has_https", f.has_https),
   ("has_ip", f.has_ip)]

/-- Embedding of `extract_features(url)` from `app.py` lines 14-32
(identical in `simple_app.py` lines 11-29). -/
def extract_features (url : List Char) : Features :=
  let rest := lastD (splitDslash url)
  { url_length := url.length
    path_length :=
      match afterFirstChar '/' rest with
      | some t => t.length
      | none => 0
    query_length :=
      match afterLastChar '?' url with
      | some t => t.length
      | none => 0
    num_digits := url.countP (fun c => c.isDigit)
    num_letters := url.countP (fun c => c.isAlpha)
    num_special := url.countP (fun c => !c.isAlphanum)
    count_dot := min (url.count '.') 4
    count_dash := url.count '-'
    count_slash := url.count '/'
    count_at := url.count '@'
    count_qmark := url.count '?'
    count_percent := url.count '%'
    count_equal := url.count '='
    has_https := if containsSeq (S "https") (url.map Char.toLower) then 1 else 0
    has_ip := if matchIp url then 1 else 0 }

/-! ## Decision rule and request handlers -/

/-- Executable absolute value on the rationals (Python `abs`). -/
def ratAbs (q : ℚ) : ℚ := if q < 0 then -q else q

/-- Embedding of the label choice
`"phishing" if probability > 0.5 else "safe"`. -/
def decideLabel (p : ℚ) : String := if p > 1/2 then "phishing" else "safe"

/-- Embedding of the confidence formula `abs(probability - 0.5) * 2`. -/
def confidenceOf (p : ℚ) : ℚ := ratAbs (p - 1/2) * 2

/-- A JSON value arriving in a request field, as far as the handlers
inspect it: a string, or anything else (`isinstance(url, str)` is the
only type dispatch the source performs on a URL value, so all
non-string values behave identically). -/
inductive JVal where
  | str (s : List Char)
  | other
deriving DecidableEq

/-- The `urls` field of a batch request, as far as the handler inspects
it: a list of values, or a non-list (`isinstance(urls, list)` is the
only type dispatch performed on it). -/
inductive BatchField where
  | list (xs : List JVal)
  | nonList
deriving DecidableEq

/-- Embedding of the validation test
`not isinstance(url, str) or len(url.strip()) == 0`:
true exactly when the value is not a string, or is empty or
whitespace-only. -/
def isInvalidUrl : JVal → Bool
  | .str s => s.all Char.isWhitespace
  | _ => true

/-- The scoring model as the handlers use it: a loaded model maps the
extracted feature row to a probability (`model.predict(X_new)[0]`). -/
def PModel : Type := Features → ℚ

/-- The classification verdict built by the `/predict` handler. -/
structure Verdict where
  url : List Char
  prediction : String
  probability : ℚ
  confidence : ℚ
deriving DecidableEq

/-- Response of the `/predict` handler: a verdict, or an error message
with its HTTP status code. -/
inductive PredictResp where
  | ok (v : Verdict)
  | err (msg : String) (code : Nat)
deriving DecidableEq

/-- Embedding of the `/predict` handler (`app.py` lines 101-155; the
`simple_app.py` handler at lines 51-102 has the same model-check /
presence-check / validation / predict sequence).  `model` is the global
model (None when loading failed); `urlField` is the request's `url`
field (`none` when the body is missing/falsy or has no `url` key — the
source returns the same error for both). -/
def predict (model : Option PModel) (urlField : Option JVal) : PredictResp :=
  match model with
  | none => .err "Model not loaded" 500
  | some pm =>
    match urlField with
    | none => .err "URL is required" 400
    | some (.str url) =>
      if url.all Char.isWhitespace then .err "Invalid URL format" 400
      else
        let p := pm (extract_features url)
        .ok ⟨url, decideLabel p, p, confidenceOf p⟩
    | some _ => .err "Invalid URL format" 400

/-- One entry of the `/predict_batch` result list: a per-URL verdict
dict, or a per-entry error dict carrying the offending value. -/
inductive EntryResult where
  | verdict (url : List Char) (prediction : String) (probability confidence : ℚ)
  | entryErr (url : JVal) (msg : String)
deriving DecidableEq

/-- Embedding of one iteration of the `/predict_batch` loop
(`app.py` lines 192-223). -/
def processEntry (pm : PModel) : JVal → EntryResult
  | .str url =>
    if url.all Char.isWhitespace then .entryErr (.str url) "Invalid URL format"
    else
      let p := pm (extract_features url)
      .verdict url (decideLabel p) p (confidenceOf p)
  | v => .entryErr v "Invalid URL format"

/-- Response of the `/predict_batch` handler: the results list with its
`total_processed` count, or a whole-batch error with its status code. -/
inductive BatchResp where
  | ok (results : List EntryResult) (total_processed : Nat)
  | err (msg : String) (code : Nat)
deriving DecidableEq

/-- Embedding of the `/predict_batch` handler (`app.py` lines 157-235).
`urlsField` is the request's `urls` field (`none` when the body is
missing/falsy or has no `urls` key). -/
def predict_batch (model : Option PModel) (urlsField : Option BatchField) :
    BatchResp :=
  match model with
  | none => .err "Model not loaded" 500
  | some pm =>
    match urlsField with
    | none => .err "URLs array is required" 400
    | some (.list urls) =>
      if urls.length = 0 then .err "URLs must be a non-empty array" 400
      else if urls.length > 100 then .err "Maximum 100 URLs allowed per batch" 400
      else
        let results := urls.map (processEntry pm)
        .ok results results.length
    | some .nonList => .err "URLs must be a non-empty array" 400

/-- Response of the `/features` handler: the extracted features for the
URL, or an error with its status code. -/
inductive FeaturesResp where
  | ok (url : List Char) (features : Features)
  | err (msg : String) (code : Nat)
deriving DecidableEq

/-- Embedding of the `/features` handler (`app.py` lines 237-268), the
boundary through which feature extraction is exposed.  Validation runs
before `extract_features` is called. -/
def get_features (urlField : Option JVal) : FeaturesResp :=
  match urlField with
  | none => .err "URL is required" 400
  | some (.str url) =>
    if url.all Char.isWhitespace then .err "Invalid URL format" 400
    else .ok url (extract_features url)
  | some _ => .err "Invalid URL format" 400

/-! ## Claim-side (spec-side) definitions -/

/-- The `path_length` rule exactly as the claim words it: the character
count of everything after the first `/` that follows the FIRST `//`
occurrence, 0 if no `/` follows `//` in the remainder (and, degenerately,
computed on the whole string when `//` is absent). -/
def pathLengthClaimed (url : List Char) : Nat :=
  match dropToAfterDslash url with
  | some rem =>
    match afterFirstChar '/' rem with
    | some t => t.length
    | none => 0
  | none =>
    match afterFirstChar '/' url with
    | some t => t.length
    | none => 0

/-- All characters are decimal digits. -/
def allDigits (s : List Char) : Bool := s.all Char.isDigit

/-- The `has_ip` shape as the claim words it: the URL begins with
`http://` or `https://` followed immediately by one-or-more digits and
`.`, three times, then one-or-more digits (purely syntactic, any suffix
may follow). -/
def StartsWithSchemeQuad (url : List Char) : Prop :=
  ∃ scheme d1 d2 d3 d4 rest : List Char,
    (scheme = S "http://" ∨ scheme = S "https://") ∧
    d1 ≠ [] ∧ d2 ≠ [] ∧ d3 ≠ [] ∧ d4 ≠ [] ∧
    allDigits d1 = true ∧ allDigits d2 = true ∧
    allDigits d3 = true ∧ allDigits d4 = true ∧
    url = scheme ++ d1 ++ '.' :: d2 ++ '.' :: d3 ++ '.' :: d4 ++ rest

/-! ## Concrete fixtures used by witness statements -/

/-- A concrete loaded model: scores every feature row 0. -/
def pmZero : PModel := fun _ => 0

/-- A concrete batch with a whitespace-only entry in the middle. -/
def urls3 : List JVal :=
  [.str (S "https://a.com"), .str (S ""), .str (S "https://b.com")]

/-! # Theorems -/

/-! ## General lemmas about the embedded handlers -/

theorem processEntry_invalid (pm : PModel) (v : JVal)
    (h : isInvalidUrl v = true) :
    processEntry pm v = .entryErr v "Invalid URL format" := by
  cases v with
  | str s =>
    simp only [isInvalidUrl] at h
    simp [processEntry, h]
  | other => rfl

/-! ## C2: decision threshold and confidence -/

/-- C2: for every probability p in [0,1], the decision rule labels
"phishing" exactly when p > 1/2 and "safe" exactly when p ≤ 1/2 (so a
tie at exactly 1/2 yields "safe"), and the confidence equals
|p - 1/2| * 2. -/
theorem decision_rule_threshold_and_confidence (p : ℚ)
    (h0 : 0 ≤ p) (h1 : p ≤ 1) :
    (decideLabel p = "phishing" ↔ 1/2 < p) ∧
    (decideLabel p = "safe" ↔ p ≤ 1/2) ∧
    decideLabel (1/2 : ℚ) = "safe" ∧
    confidenceOf p = |p - 1/2| * 2 := by
  have hne : ("phishing" : String) ≠ "safe" := by decide
  refine ⟨?_, ?_, by norm_num [decideLabel], ?_⟩
  · unfold decideLabel
    by_cases hp : 1/2 < p
    · rw [if_pos hp]
      exact iff_of_true rfl hp
    · rw [if_neg hp]
      exact iff_of_false (Ne.symm hne) hp
  · unfold decideLabel
    by_cases hp : 1/2 < p
    · rw [if_pos hp]
      exact iff_of_false hne (not_le.mpr hp)
    · rw [if_neg hp]
      exact iff_of_true rfl (not_lt.mp hp)
  · unfold confidenceOf ratAbs
    by_cases hs : p - 1/2 < 0
    · rw [if_pos hs, abs_of_neg hs]
    · rw [if_neg hs, abs_of_nonneg (not_lt.mp hs)]

/-- Witness for C2 at the concrete probability p = 3/4. -/
theorem decision_rule_threshold_and_confidence_witness :
    (0 : ℚ) ≤ 3/4 ∧ (3/4 : ℚ) ≤ 1 ∧
    ((decideLabel (3/4) = "phishing" ↔ (1 : ℚ)/2 < 3/4) ∧
     (decideLabel (3/4) = "safe" ↔ (3/4 : ℚ) ≤ 1/2) ∧
     decideLabel (1/2 : ℚ) = "safe" ∧
     confidenceOf (3/4) = |(3/4 : ℚ) - 1/2| * 2) :=
  ⟨by norm_num, by norm_num,
   decision_rule_threshold_and_confidence (3/4) (by norm_num) (by norm_num)⟩

/-! ## C9: model check precedes input validation -/

/-- C9: with no model loaded, the `/predict` handler answers the
model-unavailable error for every request — including a missing `url`
field, an empty or whitespace-only string, and a non-string value — so
the model-availability check takes precedence over input validation. -/
theorem model_unavailable_precedes_validation :
    (∀ urlField : Option JVal,
      predict none urlField = .err "Model not loaded" 500) ∧
    predict none none = .err "Model not loaded" 500 ∧
    predict none (some (.str (S ""))) = .err "Model not loaded" 500 ∧
    predict none (some .other) = .err "Model not loaded" 500 :=
  ⟨fun _ => rfl, rfl, rfl, rfl⟩

/-! ## C10: empty batch is rejected -/

/-- C10: an empty `urls` list is rejected with a whole-request error
before any per-item processing; the handler never answers an (empty)
result sequence for it. -/
theorem empty_batch_rejected (pm : PModel) :
    predict_batch (some pm) (some (.list [])) =
        .err "URLs must be a non-empty array" 400 ∧
    ∀ results n, predict_batch (some pm) (some (.list [])) ≠ .ok results n := by
  refine ⟨rfl, ?_⟩
  intro results n h
  simp [predict_batch] at h

/-! ## C4: oversize batch is rejected wholesale -/

/-- C4: a batch strictly larger than 100 entries is rejected with the
single batch-size error, producing zero per-item verdicts. -/
theorem predict_batch_oversize_rejected (pm : PModel) (urls : List JVal)
    (h : 100 < urls.length) :
    predict_batch (some pm) (some (.list urls)) =
      .err "Maximum 100 URLs allowed per batch" 400 := by
  simp only [predict_batch]
  rw [if_neg (by omega), if_pos (by omega)]

/-- Witness for C4: a concrete batch of 101 URLs is rejected. -/
theorem predict_batch_oversize_rejected_witness :
    100 < (List.replicate 101 (JVal.str (S "http://a.com"))).length ∧
    predict_batch (some pmZero)
        (some (.list (List.replicate 101 (JVal.str (S "http://a.com"))))) =
      .err "Maximum 100 URLs allowed per batch" 400 :=
  ⟨by simp, predict_batch_oversize_rejected pmZero _ (by simp)⟩

/-! ## C3: accepted batches are processed one-to-one and in order -/

/-- C3: an accepted batch (non-empty, at most 100 entries) yields
exactly one result per input, in input order — the result list is the
entrywise map of the per-entry processor, so each position depends only
on its own entry; an invalid entry (non-string, empty, or
whitespace-only) yields the entry-level error at its own position. -/
theorem predict_batch_one_to_one_in_order (pm : PModel) (urls : List JVal)
    (h1 : 0 < urls.length) (h2 : urls.length ≤ 100) :
    predict_batch (some pm) (some (.list urls)) =
        .ok (urls.map (processEntry pm)) urls.length ∧
    (urls.map (processEntry pm)).length = urls.length ∧
    (∀ i (h : i < urls.length),
      (urls.map (processEntry pm)).get ⟨i, by simpa using h⟩ =
        processEntry pm (urls.get ⟨i, h⟩)) ∧
    (∀ i (h : i < urls.length), isInvalidUrl (urls.get ⟨i, h⟩) = true →
      (urls.map (processEntry pm)).get ⟨i, by simpa using h⟩ =
        .entryErr (urls.get ⟨i, h⟩) "Invalid URL format") := by
  refine ⟨?_, List.length_map _ _, ?_, ?_⟩
  · simp only [predict_batch]
    rw [if_neg (by omega), if_neg (by omega)]
    rw [List.length_map]
  · intro i h
    simp [List.get_eq_getElem, List.getElem_map]
  · intro i h hinv
    simp only [List.get_eq_getElem, List.getElem_map] at hinv ⊢
    exact processEntry_invalid pm _ hinv

/-- Witness for C3 at a concrete 3-entry batch whose middle entry is
invalid (empty string). -/
theorem predict_batch_one_to_one_in_order_witness :
    0 < urls3.length ∧ urls3.length ≤ 100 ∧
    (predict_batch (some pmZero) (some (.list urls3)) =
        .ok (urls3.map (processEntry pmZero)) urls3.length ∧
     (urls3.map (processEntry pmZero)).length = urls3.length ∧
     (∀ i (h : i < urls3.length),
       (urls3.map (processEntry pmZero)).get ⟨i, by simpa using h⟩ =
         processEntry pmZero (urls3.get ⟨i, h⟩)) ∧
     (∀ i (h : i < urls3.length), isInvalidUrl (urls3.get ⟨i, h⟩) = true →
       (urls3.map (processEntry pmZero)).get ⟨i, by simpa using h⟩ =
         .entryErr (urls3.get ⟨i, h⟩) "Invalid URL format")) :=
  ⟨by decide, by decide,
   predict_batch_one_to_one_in_order pmZero urls3 (by decide) (by decide)⟩

/-! ## C7: invalid input is rejected before feature extraction -/

/-- C7: any empty, whitespace-only, or non-string url value is answered
with the invalid-input error by both the classification handler (with a
model loaded) and the feature-extraction handler, which never reaches
`extract_features` for such values — in particular the empty string and
a whitespace-only string get the error, not a feature vector. -/
theorem invalid_input_rejected_before_features (v : JVal)
    (hv : isInvalidUrl v = true) :
    get_features (some v) = .err "Invalid URL format" 400 ∧
    (∀ pm : PModel, predict (some pm) (some v) = .err "Invalid URL format" 400) ∧
    get_features (some (.str (S ""))) = .err "Invalid URL format" 400 ∧
    get_features (some (.str (S "   "))) = .err "Invalid URL format" 400 := by
  refine ⟨?_, ?_, rfl, rfl⟩
  · cases v with
    | str s =>
      simp only [isInvalidUrl] at hv
      simp [get_features, hv]
    | other => rfl
  · intro pm
    cases v with
    | str s =>
      simp only [isInvalidUrl] at hv
      simp [predict, hv]
    | other => rfl

/-- Witness for C7 at the concrete whitespace-only value "   ". -/
theorem invalid_input_rejected_before_features_witness :
    isInvalidUrl (.str (S "   ")) = true ∧
    (get_features (some (.str (S "   "))) = .err "Invalid URL format" 400 ∧
     (∀ pm : PModel,
       predict (some pm) (some (.str (S "   "))) =
         .err "Invalid URL format" 400) ∧
     get_features (some (.str (S ""))) = .err "Invalid URL format" 400 ∧
     get_features (some (.str (S "   "))) = .err "Invalid URL format" 400) :=
  ⟨by decide, invalid_input_rejected_before_features (.str (S "   ")) (by decide)⟩

/-! ## C5: fifteen named numeric fields, count_dot capped at 4 -/

/-- C5: for every non-empty string the feature dictionary has exactly
15 named numeric fields, in the source's order, and its `count_dot`
field is the dot count capped at 4, hence never exceeds 4. -/
theorem extract_features_fifteen_fields_count_dot_capped (s : List Char)
    (hs : s ≠ []) :
    (extract_features s).toList.length = 15 ∧
    (extract_features s).toList.map Prod.fst =
      ["url_length", "path_length", "query_length", "num_digits",
       "num_letters", "num_special", "count_dot", "count_dash",
       "count_slash", "count_at", "count_qmark", "count_percent",
       "count_equal", "has_https", "has_ip"] ∧
    (extract_features s).count_dot = min (s.count '.') 4 ∧
    (extract_features s).count_dot ≤ 4 := by
  refine ⟨rfl, rfl, rfl, ?_⟩
  exact min_le_right _ _

/-- Witness for C5 at a concrete string with six dots. -/
theorem extract_features_fifteen_fields_count_dot_capped_witness :
    S "a.b..c...d" ≠ [] ∧
    ((extract_features (S "a.b..c...d")).toList.length = 15 ∧
     (extract_features (S "a.b..c...d")).toList.map Prod.fst =
       ["url_length", "path_length", "query_length", "num_digits",
        "num_letters", "num_special", "count_dot", "count_dash",
        "count_slash", "count_at", "count_qmark", "count_percent",
        "count_equal", "has_https", "has_ip"] ∧
     (extract_features (S "a.b..c...d")).count_dot =
       min ((S "a.b..c...d").count '.') 4 ∧
     (extract_features (S "a.b..c...d")).count_dot ≤ 4) :=
  ⟨by decide,
   extract_features_fifteen_fields_count_dot_capped (S "a.b..c...d") (by decide)⟩

/-! ## Lemmas about splitting on the double slash -/

theorem S_dslash : S "//" = ['/', '/'] := rfl

theorem splitDslash_ne_nil : ∀ s : List Char, splitDslash s ≠ [] := by
  intro s
  cases s with
  | nil => simp [splitDslash]
  | cons c rest =>
    cases rest with
    | nil => simp [splitDslash]
    | cons d rest' =>
      simp only [splitDslash]
      by_cases hcd : c = '/' ∧ d = '/'
      · simp [hcd]
      · rw [if_neg hcd]
        cases hsp : splitDslash (d :: rest') with
        | nil => simp
        | cons s0 ss => simp

theorem no_dslash_split :
    ∀ s : List Char, dropToAfterDslash s = none → splitDslash s = [s] := by
  intro s
  induction s with
  | nil => intro _; rfl
  | cons c rest ih =>
    intro h
    cases rest with
    | nil => rfl
    | cons d rest' =>
      simp only [dropToAfterDslash] at h
      by_cases hcd : c = '/' ∧ d = '/'
      · rw [if_pos hcd] at h
        exact absurd h (by simp)
      · rw [if_neg hcd] at h
        simp only [splitDslash]
        rw [if_neg hcd, ih h]

theorem containsSeq_dslash_iff :
    ∀ s : List Char, containsSeq (S "//") s = false ↔ dropToAfterDslash s = none := by
  intro s
  induction s with
  | nil => simp [containsSeq, dropToAfterDslash, S_dslash]
  | cons c rest ih =>
    cases rest with
    | nil =>
      rw [S_dslash]
      simp [containsSeq, dropToAfterDslash, List.isPrefixOf]
    | cons d rest' =>
      rw [S_dslash] at ih ⊢
      have hstep : containsSeq ['/', '/'] (c :: d :: rest') =
          (('/' == c && ('/' == d && List.isPrefixOf [] rest')) ||
            containsSeq ['/', '/'] (d :: rest')) := rfl
      have hdrop : dropToAfterDslash (c :: d :: rest') =
          if c = '/' ∧ d = '/' then some rest'
          else dropToAfterDslash (d :: rest') := rfl
      rw [hstep, hdrop]
      by_cases hcd : c = '/' ∧ d = '/'
      · obtain ⟨rfl, rfl⟩ := hcd
        simp
      · rw [if_neg hcd]
        have hpre : ('/' == c && ('/' == d && List.isPrefixOf [] rest')) = false := by
          rcases not_and_or.mp hcd with hc | hd
          · have h1 : ('/' == c) = false := by
              rw [beq_eq_false_iff_ne]
              exact fun he => hc he.symm
            rw [h1, Bool.false_and]
          · have h1 : ('/' == d) = false := by
              rw [beq_eq_false_iff_ne]
              exact fun he => hd he.symm
            rw [h1, Bool.false_and, Bool.and_false]
        rw [hpre, Bool.false_or]
        exact ih

theorem lastRemainder_none (s : List Char) (h : dropToAfterDslash s = none) :
    lastRemainder s = s := by
  rw [lastRemainder]
  split
  · rfl
  · rename_i t heq
    rw [h] at heq
    exact absurd heq (by simp)

theorem lastRemainder_some (s t : List Char) (h : dropToAfterDslash s = some t) :
    lastRemainder s = lastRemainder t := by
  rw [lastRemainder]
  split
  · rename_i heq
    rw [h] at heq
    exact absurd heq (by simp)
  · rename_i t' heq
    rw [h] at heq
    cases heq
    rfl

theorem splitDslash_two :
    ∀ s t : List Char, dropToAfterDslash s = some t →
      2 ≤ (splitDslash s).length := by
  intro s
  induction s with
  | nil => intro t h; simp [dropToAfterDslash] at h
  | cons c rest ih =>
    intro t h
    cases rest with
    | nil => simp [dropToAfterDslash] at h
    | cons d rest' =>
      simp only [dropToAfterDslash] at h
      simp only [splitDslash]
      by_cases hcd : c = '/' ∧ d = '/'
      · rw [if_pos hcd]
        cases hsp : splitDslash rest' with
        | nil => exact absurd hsp (splitDslash_ne_nil _)
        | cons a as => simp
      · rw [if_neg hcd] at h
        rw [if_neg hcd]
        have h2 := ih t h
        cases hsp : splitDslash (d :: rest') with
        | nil => exact absurd hsp (splitDslash_ne_nil _)
        | cons a as =>
          rw [hsp] at h2
          simpa using h2

theorem lastD_splitDslash (s : List Char) :
    lastD (splitDslash s) = lastRemainder s := by
  cases s with
  | nil =>
    rw [lastRemainder_none [] rfl]
    rfl
  | cons c rest =>
    cases rest with
    | nil =>
      rw [lastRemainder_none [c] rfl]
      rfl
    | cons d rest' =>
      by_cases hcd : c = '/' ∧ d = '/'
      · have hdrop : dropToAfterDslash (c :: d :: rest') = some rest' := by
          simp only [dropToAfterDslash]
          rw [if_pos hcd]
        rw [lastRemainder_some _ _ hdrop]
        simp only [splitDslash]
        rw [if_pos hcd]
        cases hsp : splitDslash rest' with
        | nil => exact absurd hsp (splitDslash_ne_nil _)
        | cons a as =>
          have ihr := lastD_splitDslash rest'
          rw [hsp] at ihr
          show lastD (a :: as) = _
          exact ihr
      · have hdrop : dropToAfterDslash (c :: d :: rest') =
            dropToAfterDslash (d :: rest') := by
          simp only [dropToAfterDslash]
          rw [if_neg hcd]
        simp only [splitDslash]
        rw [if_neg hcd]
        cases hdr : dropToAfterDslash (d :: rest') with
        | none =>
          rw [lastRemainder_none _ (hdrop.trans hdr)]
          rw [no_dslash_split _ hdr]
          rfl
        | some t =>
          rw [lastRemainder_some _ _ (hdrop.trans hdr)]
          have h2 := splitDslash_two (d :: rest') t hdr
          have ihr := lastD_splitDslash (d :: rest')
          rw [lastRemainder_some _ _ hdr] at ihr
          cases hsp : splitDslash (d :: rest') with
          | nil => exact absurd hsp (splitDslash_ne_nil _)
          | cons a as =>
            rw [hsp] at ihr h2
            cases as with
            | nil => simp at h2
            | cons b bs =>
              show lastD (b :: bs) = _
              exact ihr
termination_by s.length
decreasing_by
  all_goals simp
  omega

/-! ## C8: URLs without a double slash fall back to the whole string -/

/-- C8: when the URL contains no `//` at all, `path_length` is computed
against the full URL string: it is the character count after the first
`/` of the whole string, or 0 when the string has no `/`; the handler
treats this as an ordinary value, not an error. -/
theorem path_length_no_dslash (url : List Char)
    (h : containsSeq (S "//") url = false) :
    (extract_features url).path_length =
      match afterFirstChar '/' url with
      | some t => t.length
      | none => 0 := by
  have hd : dropToAfterDslash url = none := (containsSeq_dslash_iff url).mp h
  show (match afterFirstChar '/' (lastD (splitDslash url)) with
        | some t => t.length
        | none => 0) = _
  rw [no_dslash_split url hd]
  rfl

/-- Witness for C8 at a concrete URL with slashes but no double slash. -/
theorem path_length_no_dslash_witness :
    containsSeq (S "//") (S "www.google.com/search?q=1") = false ∧
    (extract_features (S "www.google.com/search?q=1")).path_length =
      match afterFirstChar '/' (S "www.google.com/search?q=1") with
      | some t => t.length
      | none => 0 :=
  ⟨by decide, path_length_no_dslash (S "www.google.com/search?q=1") (by decide)⟩

/-! ## C1: path_length is NOT taken after the first double slash -/

/-- Counterexample for C1 as stated: for the URL "a//b//c" (which
contains `//`), the claim's reading — count after the first `/` that
follows the FIRST `//` — gives 2, but `extract_features` (which takes
`url.split("//")[-1]`, the segment after the LAST double slash of the
scan) yields 0. -/
theorem path_length_first_dslash_reading_false :
    containsSeq (S "//") (S "a//b//c") = true ∧
    pathLengthClaimed (S "a//b//c") = 2 ∧
    (extract_features (S "a//b//c")).path_length = 0 ∧
    (extract_features (S "a//b//c")).path_length ≠
      pathLengthClaimed (S "a//b//c") := by
  refine ⟨by decide, by decide, by decide, by decide⟩

/-- C1 amended: for every URL string containing `//`, `path_length`
equals the character count of everything after the first `/` in the
remainder following the LAST `//` of the leftmost non-overlapping scan
(Python's `url.split("//")[-1]`), and 0 if no `/` occurs in that
remainder. -/
theorem path_length_after_last_dslash (url : List Char)
    (h : containsSeq (S "//") url = true) :
    (extract_features url).path_length =
      match afterFirstChar '/' (lastRemainder url) with
      | some t => t.length
      | none => 0 := by
  show (match afterFirstChar '/' (lastD (splitDslash url)) with
        | some t => t.length
        | none => 0) = _
  rw [lastD_splitDslash]

/-- Witness for the amended C1 at a concrete URL with two double
slashes. -/
theorem path_length_after_last_dslash_witness :
    containsSeq (S "//") (S "http://a.com//x/y") = true ∧
    (extract_features (S "http://a.com//x/y")).path_length =
      match afterFirstChar '/' (lastRemainder (S "http://a.com//x/y")) with
      | some t => t.length
      | none => 0 :=
  ⟨by decide, path_length_after_last_dslash (S "http://a.com//x/y") (by decide)⟩

/-! ## Lemmas about the dotted-quad regex parser -/

theorem stripScheme_eq_some (s t : List Char) :
    stripScheme s = some t ↔
      s = S "http://" ++ t ∨ s = S "https://" ++ t := by
  constructor
  · intro h
    unfold stripScheme at h
    split at h
    · cases h
      exact Or.inl rfl
    · cases h
      exact Or.inr rfl
    · exact absurd h (by simp)
  · rintro (rfl | rfl) <;> rfl

theorem munchDigits_eq_some (s t : List Char) (h : munchDigits s = some t) :
    ∃ d, d ≠ [] ∧ allDigits d = true ∧ s = d ++ t := by
  unfold munchDigits at h
  by_cases he : (s.takeWhile Char.isDigit).isEmpty
  · rw [if_pos he] at h
    exact absurd h (by simp)
  · rw [if_neg he] at h
    cases h
    refine ⟨s.takeWhile Char.isDigit, ?_, ?_, ?_⟩
    · intro hnil
      exact he (List.isEmpty_iff.mpr hnil)
    · rw [allDigits, List.all_eq_true]
      intro c hc
      exact List.mem_takeWhile_imp hc
    · exact (List.takeWhile_append_dropWhile Char.isDigit s).symm

theorem takeWhile_digits_append (d : List Char) (c : Char) (r : List Char)
    (hd : allDigits d = true) (hc : c.isDigit = false) :
    (d ++ c :: r).takeWhile Char.isDigit = d ∧
    (d ++ c :: r).dropWhile Char.isDigit = c :: r := by
  induction d with
  | nil =>
    simp [List.takeWhile_cons, List.dropWhile_cons, hc]
  | cons a d' ih =>
    rw [allDigits, List.all_cons, Bool.and_eq_true] at hd
    obtain ⟨ha, hd'⟩ := hd
    have hrec := ih hd'
    constructor
    · rw [List.cons_append, List.takeWhile_cons, if_pos ha, hrec.1]
    · rw [List.cons_append, List.dropWhile_cons, if_pos ha, hrec.2]

theorem munchDigits_append_nondigit (d : List Char) (c : Char) (r : List Char)
    (hne : d ≠ []) (hd : allDigits d = true) (hc : c.isDigit = false) :
    munchDigits (d ++ c :: r) = some (c :: r) := by
  obtain ⟨ht, hdr⟩ := takeWhile_digits_append d c r hd hc
  unfold munchDigits
  rw [ht, hdr, if_neg (fun he => hne (List.isEmpty_iff.mp he))]

theorem munchDigits_isSome_of_digit (d r : List Char)
    (hne : d ≠ []) (hd : allDigits d = true) :
    (munchDigits (d ++ r)).isSome = true := by
  cases d with
  | nil => exact absurd rfl hne
  | cons a d' =>
    rw [allDigits, List.all_cons, Bool.and_eq_true] at hd
    unfold munchDigits
    rw [List.cons_append, List.takeWhile_cons, if_pos hd.1]
    simp

theorem expectChar_eq_some (c : Char) (s t : List Char) :
    expectChar c s = some t ↔ s = c :: t := by
  cases s with
  | nil => simp [expectChar]
  | cons x rest =>
    show (if x = c then some rest else none) = some t ↔ x :: rest = c :: t
    by_cases hx : x = c
    · subst hx
      simp
    · rw [if_neg hx]
      simp [hx]

theorem dotDigits_eq_some (s t : List Char) (h : dotDigits s = some t) :
    ∃ d, d ≠ [] ∧ allDigits d = true ∧ s = '.' :: (d ++ t) := by
  unfold dotDigits at h
  rw [Option.bind_eq_some] at h
  obtain ⟨u, hu, hm⟩ := h
  rw [expectChar_eq_some] at hu
  obtain ⟨d, hdne, hdall, rfl⟩ := munchDigits_eq_some u t hm
  exact ⟨d, hdne, hdall, by rw [hu]⟩

theorem dotDigits_append_nondigit (d : List Char) (c : Char) (r : List Char)
    (hne : d ≠ []) (hd : allDigits d = true) (hc : c.isDigit = false) :
    dotDigits ('.' :: (d ++ c :: r)) = some (c :: r) := by
  unfold dotDigits
  have he : expectChar '.' ('.' :: (d ++ c :: r)) = some (d ++ c :: r) := by
    rw [expectChar_eq_some]
  rw [he, Option.some_bind]
  exact munchDigits_append_nondigit d c r hne hd hc

theorem dotDigits_isSome_of_digit (d r : List Char)
    (hne : d ≠ []) (hd : allDigits d = true) :
    (dotDigits ('.' :: (d ++ r))).isSome = true := by
  unfold dotDigits
  have he : expectChar '.' ('.' :: (d ++ r)) = some (d ++ r) := by
    rw [expectChar_eq_some]
  rw [he, Option.some_bind]
  exact munchDigits_isSome_of_digit d r hne hd

theorem matchIp_iff (url : List Char) :
    matchIp url = true ↔ StartsWithSchemeQuad url := by
  constructor
  · intro h
    unfold matchIp at h
    rw [Option.isSome_iff_exists] at h
    obtain ⟨rest4, h⟩ := h
    rw [Option.bind_eq_some] at h
    obtain ⟨t3, h3, hd4⟩ := h
    rw [Option.bind_eq_some] at h3
    obtain ⟨t2, h2, hd3⟩ := h3
    rw [Option.bind_eq_some] at h2
    obtain ⟨t1, h1, hd2⟩ := h2
    rw [Option.bind_eq_some] at h1
    obtain ⟨t0, h0, hm1⟩ := h1
    obtain ⟨d1, h1ne, h1all, rfl⟩ := munchDigits_eq_some t0 t1 hm1
    obtain ⟨d2, h2ne, h2all, rfl⟩ := dotDigits_eq_some t1 t2 hd2
    obtain ⟨d3, h3ne, h3all, rfl⟩ := dotDigits_eq_some t2 t3 hd3
    obtain ⟨d4, h4ne, h4all, rfl⟩ := dotDigits_eq_some t3 rest4 hd4
    rcases (stripScheme_eq_some url _).mp h0 with hu | hu
    · refine ⟨S "http://", d1, d2, d3, d4, rest4, Or.inl rfl,
        h1ne, h2ne, h3ne, h4ne, h1all, h2all, h3all, h4all, ?_⟩
      rw [hu]
      simp [List.append_assoc, List.cons_append]
    · refine ⟨S "https://", d1, d2, d3, d4, rest4, Or.inr rfl,
        h1ne, h2ne, h3ne, h4ne, h1all, h2all, h3all, h4all, ?_⟩
      rw [hu]
      simp [List.append_assoc, List.cons_append]
  · rintro ⟨scheme, d1, d2, d3, d4, rest, hscheme, h1ne, h2ne, h3ne, h4ne,
      h1all, h2all, h3all, h4all, rfl⟩
    unfold matchIp
    have htail : scheme ++ d1 ++ '.' :: d2 ++ '.' :: d3 ++ '.' :: d4 ++ rest =
        scheme ++ (d1 ++ '.' :: (d2 ++ '.' :: (d3 ++ '.' :: (d4 ++ rest)))) := by
      simp [List.append_assoc, List.cons_append]
    rw [htail]
    have hss : stripScheme
          (scheme ++ (d1 ++ '.' :: (d2 ++ '.' :: (d3 ++ '.' :: (d4 ++ rest))))) =
        some (d1 ++ '.' :: (d2 ++ '.' :: (d3 ++ '.' :: (d4 ++ rest)))) := by
      rcases hscheme with rfl | rfl
      · exact (stripScheme_eq_some _ _).mpr (Or.inl rfl)
      · exact (stripScheme_eq_some _ _).mpr (Or.inr rfl)
    rw [hss, Option.some_bind]
    rw [munchDigits_append_nondigit d1 '.' _ h1ne h1all (by decide),
      Option.some_bind]
    rw [dotDigits_append_nondigit d2 '.' _ h2ne h2all (by decide),
      Option.some_bind]
    rw [dotDigits_append_nondigit d3 '.' _ h3ne h3all (by decide),
      Option.some_bind]
    exact dotDigits_isSome_of_digit d4 rest h4ne h4all

/-! ## C6: has_ip is a purely syntactic dotted-quad prefix test -/

/-- C6: `has_ip` is 1 exactly when the URL begins with `http://` or
`https://` followed immediately by a dotted-quad digit pattern
(one-or-more digits, `.`, three times, then one-or-more digits, any
suffix after) — a purely syntactic test, so the out-of-range
"http://999.999.999.999" yields 1 while "http://example.com" yields 0. -/
theorem has_ip_dotted_quad_syntactic :
    (∀ url : List Char,
      (extract_features url).has_ip = 1 ↔ StartsWithSchemeQuad url) ∧
    (extract_features (S "http://192.168.1.1")).has_ip = 1 ∧
    (extract_features (S "http://999.999.999.999")).has_ip = 1 ∧
    (extract_features (S "http://example.com")).has_ip = 0 := by
  refine ⟨?_, by decide, by decide, by decide⟩
  intro url
  show (if matchIp url then 1 else 0) = 1 ↔ _
  by_cases hm : matchIp url = true
  · rw [if_pos hm]
    exact iff_of_true rfl ((matchIp_iff url).mp hm)
  · rw [if_neg hm]
    exact iff_of_false (by decide) (fun hq => hm ((matchIp_iff url).mpr hq))
